import Mathlib

/-!
Shallow embedding of the PointerWars repository: slab / bump-pointer
allocator, the level-1 and level-2 singly linked lists, the FIFO queue
built on the level-2 list, and the graph / breadth-first-search benchmark
harness.  Pointers are modelled as abstract natural-number addresses, the
node heap as a partial map from addresses to node records, and C functions
as state-passing Lean functions.  A result of `Res.crash` models undefined
behaviour (dereferencing a null, dangling or indeterminate pointer, or a
fatal process exit); `Res.timeout` is a fuel-exhaustion marker for source
loops whose termination is not structural.
-/

/-- Outcome of running a piece of embedded C code: a value, undefined
behaviour / abnormal termination, or out-of-fuel (modelling artefact). -/
inductive Res (α : Type) where
  | ok (val : α)
  | crash
  | timeout
deriving DecidableEq

/-- Sequencing of embedded computations; crash and fuel exhaustion propagate. -/
def Res.bind {α β : Type} (r : Res α) (f : α → Res β) : Res β :=
  match r with
  | Res.ok a => f a
  | Res.crash => Res.crash
  | Res.timeout => Res.timeout

/-- Map over a successful result. -/
def Res.map {α β : Type} (f : α → β) (r : Res α) : Res β :=
  match r with
  | Res.ok a => Res.ok (f a)
  | Res.crash => Res.crash
  | Res.timeout => Res.timeout

@[simp] theorem Res.bind_ok {α β : Type} (a : α) (f : α → Res β) :
    Res.bind (Res.ok a) f = f a := rfl

@[simp] theorem Res.bind_crash {α β : Type} (f : α → Res β) :
    Res.bind (Res.crash : Res α) f = Res.crash := rfl

@[simp] theorem Res.map_ok {α β : Type} (f : α → β) (a : α) :
    Res.map f (Res.ok a) = Res.ok (f a) := rfl

/-- The value of a C pointer variable: NULL, a valid address, or an
indeterminate (uninitialized or dangling-pattern) value. -/
inductive Link where
  | null
  | ptr (addr : Nat)
  | junk
deriving DecidableEq

/-- A linked-list node: `{ unsigned int data; struct node * next; }`. -/
structure Node where
  data : Nat
  next : Link
deriving DecidableEq

/-- The node heap served by the registered malloc-like function, with a
fresh-address counter and a count of allocation calls made so far. -/
structure Mem where
  heap : Nat → Option Node
  next_addr : Nat
  calls : Nat

/-- The empty heap. -/
def mem0 : Mem := { heap := fun _ => none, next_addr := 0, calls := 0 }

/-- An allocation schedule: whether the registered malloc-like function
returns a block (true) or NULL (false) on its n-th call. -/
def schedT : Nat → Bool := fun _ => true

/-- Schedule on which every allocation fails. -/
def schedF : Nat → Bool := fun _ => false

/-- Schedule on which only the first allocation succeeds. -/
def sched01 : Nat → Bool := fun n => decide (n = 0)

/-- One call to the registered malloc-like function: returns a fresh
address or NULL according to the schedule.  No heap cell is installed;
the caller models the field writes that initialize the block. -/
def memAllocRaw (sched : Nat → Bool) (m : Mem) : Option Nat × Mem :=
  if sched m.calls then
    (some m.next_addr, { m with next_addr := m.next_addr + 1, calls := m.calls + 1 })
  else
    (none, { m with calls := m.calls + 1 })

/-- Allocate a node-sized block.  The returned block's contents are
indeterminate; the next field starts as `Link.junk` and the data field's
placeholder is always overwritten before any read in the source. -/
def mallocNode (sched : Nat → Bool) (m : Mem) : Option Nat × Mem :=
  match memAllocRaw sched m with
  | (none, m') => (none, m')
  | (some a, m') =>
    (some a, { m' with heap := Function.update m'.heap a (some { data := 0, next := Link.junk }) })

/-- Read the node a link points to; NULL, indeterminate and dangling
pointers make the access undefined behaviour. -/
def readNode (m : Mem) (l : Link) : Res Node :=
  match l with
  | Link.ptr a =>
    match m.heap a with
    | some nd => Res.ok nd
    | none => Res.crash
  | _ => Res.crash

/-- Extract the address of a valid pointer; anything else is a crash when
used as the target of a field write. -/
def readPtr (l : Link) : Res Nat :=
  match l with
  | Link.ptr a => Res.ok a
  | _ => Res.crash

/-- Write the data field of the node at address a. -/
def setData (m : Mem) (a : Nat) (v : Nat) : Mem :=
  { m with heap := Function.update m.heap a ((m.heap a).map (fun nd => { nd with data := v })) }

/-- Write the next field of the node at address a. -/
def setNextAt (m : Mem) (a : Nat) (l : Link) : Mem :=
  { m with heap := Function.update m.heap a ((m.heap a).map (fun nd => { nd with next := l })) }

/-- Release the node at address a (a free()-like function). -/
def freeAt (m : Mem) (a : Nat) : Mem :=
  { m with heap := Function.update m.heap a none }

/-- SIZE_MAX on the 64-bit target. -/
def SIZE_MAX : Nat := 2 ^ 64 - 1

/-! ## Slab and bump-pointer allocator

Both copies of the allocator (the standalone level-2 module and the
header-embedded level-1 copy) have textually identical bodies; one
embedding covers both.  Slab backing stores come from the system malloc,
modelled as an always-succeeding source of fresh 16-byte-aligned blocks
driven by a byte counter. -/

/-- Modulus of uintptr_t arithmetic. -/
def UINTPTR_MOD : Nat := 2 ^ 64

/-- align_to: `(uintptr_t)(raw + alignment - 1) & ~(alignment - 1)`. -/
def align_to (raw : Nat) (alignment : Nat) : Nat :=
  ((raw + alignment - 1) % UINTPTR_MOD) &&& (UINTPTR_MOD - alignment)

/-- The system allocator backing slab_init: a byte counter handing out
fresh 16-byte-aligned disjoint blocks (system malloc never fails here). -/
structure SysMem where
  next_addr : Nat

/-- One system malloc call for a slab backing store. -/
def sysMalloc (s : SysMem) (size : Nat) : Nat × SysMem :=
  let base := align_to s.next_addr 16
  (base, { next_addr := base + size })

/-- struct slab. -/
structure Slab where
  data : Nat
  curr : Nat
  end_ : Nat
  alloc_size : Nat
deriving DecidableEq

/-- slab_init: acquire a backing block and set data/curr/end/alloc_size. -/
def slab_init (s : SysMem) (alloc_size : Nat) : Slab × SysMem :=
  let (base, s') := sysMalloc s alloc_size
  ({ data := base, curr := base, end_ := base + alloc_size, alloc_size := alloc_size }, s')

/-- slab_malloc: bump allocation at the next 8-aligned address; fails
without mutating state when the aligned block would pass the end. -/
def slab_malloc (slab : Slab) (size : Nat) : Option Nat × Slab :=
  let new_alloc := align_to slab.curr 8
  let new_alloc_end := new_alloc + size
  if slab.end_ < new_alloc_end then (none, slab)
  else (some new_alloc, { slab with curr := new_alloc_end })

/-- DEFAULT_ALLOC_SIZE_BYTES. -/
def DEFAULT_ALLOC_SIZE_BYTES : Nat := 4096

/-- DEFAULT_NUM_SLABS. -/
def DEFAULT_NUM_SLABS : Nat := 512

/-- struct bump_ptr_allocator. -/
structure BumpPtrAllocator where
  slabs : Nat → Slab
  slab_ptr : Nat
  last_alloc_size : Nat
  total_mem_allocated : Nat
  initialized : Bool

/-- The zero-initialized static allocator instance. -/
def allocator0 : BumpPtrAllocator :=
  { slabs := fun _ => { data := 0, curr := 0, end_ := 0, alloc_size := 0 },
    slab_ptr := 0, last_alloc_size := 0, total_mem_allocated := 0, initialized := false }

/-- bump_ptr_allocator_init; double initialization is a fatal exit. -/
def bump_ptr_allocator_init (s : SysMem) (a : BumpPtrAllocator) :
    Res (BumpPtrAllocator × SysMem) :=
  if a.initialized then Res.crash
  else
    let a1 : BumpPtrAllocator :=
      { a with initialized := true, slab_ptr := 0,
               last_alloc_size := DEFAULT_ALLOC_SIZE_BYTES,
               total_mem_allocated := DEFAULT_ALLOC_SIZE_BYTES }
    let (sl, s') := slab_init s a1.last_alloc_size
    Res.ok ({ a1 with slabs := Function.update a1.slabs 0 sl }, s')

/-- bump_ptr_allocator_malloc.  On exhaustion of the active slab it moves
to the next slot with doubled size and retries once; note that on a
successful retry the source returns `slabs[slab_ptr].curr`, the cursor
value after the allocation, not the start of the served block. -/
def bump_ptr_allocator_malloc (s : SysMem) (a : BumpPtrAllocator) (size : Nat) :
    Option Nat × BumpPtrAllocator × SysMem :=
  let (r, sl') := slab_malloc (a.slabs a.slab_ptr) size
  match r with
  | some p => (some p, { a with slabs := Function.update a.slabs a.slab_ptr sl' }, s)
  | none =>
    if DEFAULT_NUM_SLABS ≤ a.slab_ptr + 1 then (none, a, s)
    else
      let a1 : BumpPtrAllocator :=
        { a with slab_ptr := a.slab_ptr + 1,
                 last_alloc_size := a.last_alloc_size * 2,
                 total_mem_allocated := a.total_mem_allocated + a.last_alloc_size * 2 }
      let (nsl, s') := slab_init s a1.last_alloc_size
      let a2 : BumpPtrAllocator := { a1 with slabs := Function.update a1.slabs a1.slab_ptr nsl }
      let (r2, sl2) := slab_malloc (a2.slabs a2.slab_ptr) size
      match r2 with
      | some _ =>
        (some sl2.curr, { a2 with slabs := Function.update a2.slabs a2.slab_ptr sl2 }, s')
      | none => (none, a2, s')

/-- A three-request run of the default-configuration allocator: fill the
first 4096-byte slab exactly, then two 8-byte requests, the first of which
forces growth to a new 8192-byte slab.  Returns the three result pointers. -/
def c1_run : Option Nat × Option Nat × Option Nat :=
  match bump_ptr_allocator_init { next_addr := 0 } allocator0 with
  | Res.ok (a, s) =>
    let (p1, a1, s1) := bump_ptr_allocator_malloc s a 4096
    let (p2, a2, s2) := bump_ptr_allocator_malloc s1 a1 8
    let (p3, _, _) := bump_ptr_allocator_malloc s2 a2 8
    (p1, p2, p3)
  | _ => (none, none, none)


/-! ## Level-2 linked list (level2/queue.h)

Head + tail + size, externally registered allocation functions.  The list
header is passed by value (single-owner mutation through a pointer in C);
a nullable list argument is `Option LL2`.  The registered malloc is the
`sched`-driven fresh allocator on the node heap. -/

namespace level2

/-- struct linked_list of the level-2 variant. -/
structure LL2 where
  head : Link
  tail : Link
  size : Nat
deriving DecidableEq

/-- linked_list_size: size, or SIZE_MAX for a NULL list. -/
def linked_list_size (ll : Option LL2) : Nat :=
  match ll with
  | none => SIZE_MAX
  | some l => l.size

/-- struct iterator.  The back-reference to the list is aliasing-only in
the source and is not consulted by any embedded operation, so the value
model keeps the position, node pointer and cached data. -/
structure Iterator where
  current_index : Nat
  current_node : Link
  data : Nat
deriving DecidableEq

/-- The head-relative walk in _linked_list_init_iterator:
`curr = ll->head; while (i-- > 0) curr = curr->next;` with one node
dereference per step. -/
def walkNext (m : Mem) (l : Link) (i : Nat) : Res Link :=
  match i with
  | 0 => Res.ok l
  | i + 1 => Res.bind (readNode m l) (fun nd => walkNext m nd.next i)

/-- _linked_list_init_iterator: walk to position index and cache the
node's data (dereferencing the node reached). -/
def _linked_list_init_iterator (m : Mem) (ll : LL2) (index : Nat) : Res Iterator :=
  Res.bind (walkNext m ll.head index) (fun cur =>
    Res.bind (readNode m cur) (fun nd =>
      Res.ok { current_index := index, current_node := cur, data := nd.data }))

/-- linked_list_insert.  After the bounds check the source dereferences
the freshly malloc'd node without a NULL check, so a failed allocation is
undefined behaviour.  In the append branch (index == size, nonempty) the
new node's next field is never assigned and keeps its indeterminate
malloc contents. -/
def linked_list_insert (sched : Nat → Bool) (m : Mem) (ll : Option LL2)
    (index : Nat) (data : Nat) : Res (Bool × Option LL2 × Mem) :=
  match ll with
  | none => Res.ok (false, none, m)
  | some l =>
    if l.size < index then Res.ok (false, some l, m)
    else
      match mallocNode sched m with
      | (none, _) => Res.crash
      | (some a, m1) =>
        let m2 := setData m1 a data
        if index = 0 then
          let m3 := setNextAt m2 a l.head
          let l' : LL2 :=
            if l.size = 0 then { head := Link.ptr a, tail := Link.ptr a, size := l.size + 1 }
            else { l with head := Link.ptr a, size := l.size + 1 }
          Res.ok (true, some l', m3)
        else if index = l.size then
          Res.bind (readPtr l.tail) (fun t =>
            match m2.heap t with
            | none => Res.crash
            | some _ =>
              let m3 := setNextAt m2 t (Link.ptr a)
              Res.ok (true, some { l with tail := Link.ptr a, size := l.size + 1 }, m3))
        else
          Res.bind (_linked_list_init_iterator m2 l (index - 1)) (fun iter =>
            Res.bind (readPtr iter.current_node) (fun p =>
              Res.bind (readNode m2 iter.current_node) (fun pnd =>
                let m3 := setNextAt m2 a pnd.next
                let m4 := setNextAt m3 p (Link.ptr a)
                Res.ok (true, some { l with size := l.size + 1 }, m4))))

/-- linked_list_insert_end: insert at the current size. -/
def linked_list_insert_end (sched : Nat → Bool) (m : Mem) (ll : Option LL2)
    (data : Nat) : Res (Bool × Option LL2 × Mem) :=
  match ll with
  | none => Res.ok (false, none, m)
  | some l => linked_list_insert sched m (some l) l.size data

/-- linked_list_insert_front: insert at index 0. -/
def linked_list_insert_front (sched : Nat → Bool) (m : Mem) (ll : Option LL2)
    (data : Nat) : Res (Bool × Option LL2 × Mem) :=
  linked_list_insert sched m ll 0 data

/-- The scan loop of linked_list_find; branching on an indeterminate
pointer value is undefined behaviour. -/
def findLoop (m : Mem) (v : Nat) (curr : Link) (fuel : Nat) (i : Nat) : Res Nat :=
  match fuel with
  | 0 => Res.timeout
  | fuel + 1 =>
    match curr with
    | Link.null => Res.ok SIZE_MAX
    | Link.junk => Res.crash
    | Link.ptr a =>
      match m.heap a with
      | none => Res.crash
      | some nd => if nd.data = v then Res.ok i else findLoop m v nd.next fuel (i + 1)

/-- linked_list_find: linear scan from head for the first occurrence. -/
def linked_list_find (m : Mem) (ll : Option LL2) (data : Nat) (fuel : Nat) : Res Nat :=
  match ll with
  | none => Res.ok SIZE_MAX
  | some l => findLoop m data l.head fuel 0

/-- linked_list_remove.  Removing a non-head node updates tail to the
predecessor when the removed node was the tail; removing the head does
not touch tail. -/
def linked_list_remove (m : Mem) (ll : Option LL2) (index : Nat) :
    Res (Bool × Option LL2 × Mem) :=
  match ll with
  | none => Res.ok (false, none, m)
  | some l =>
    if l.size ≤ index then Res.ok (false, some l, m)
    else if index = 0 then
      Res.bind (readPtr l.head) (fun a =>
        Res.bind (readNode m l.head) (fun nd =>
          Res.ok (true, some { l with head := nd.next, size := l.size - 1 }, freeAt m a)))
    else
      Res.bind (_linked_list_init_iterator m l (index - 1)) (fun iter =>
        Res.bind (readPtr iter.current_node) (fun p =>
          Res.bind (readNode m iter.current_node) (fun pnd =>
            Res.bind (readPtr pnd.next) (fun ta =>
              Res.bind (readNode m pnd.next) (fun tnd =>
                let m1 := setNextAt m p tnd.next
                let l' : LL2 :=
                  if l.tail = pnd.next then { l with tail := iter.current_node, size := l.size - 1 }
                  else { l with size := l.size - 1 }
                Res.ok (true, some l', freeAt m1 ta))))))

/-- linked_list_create_iterator: NULL for a NULL list or index out of
range, otherwise a malloc'd iterator initialized by the shared helper;
the malloc result is written through without a NULL check. -/
def linked_list_create_iterator (sched : Nat → Bool) (m : Mem) (ll : Option LL2)
    (index : Nat) : Res (Option Iterator × Mem) :=
  match ll with
  | none => Res.ok (none, m)
  | some l =>
    if l.size ≤ index then Res.ok (none, m)
    else
      match memAllocRaw sched m with
      | (none, _) => Res.crash
      | (some _, m1) =>
        Res.bind (_linked_list_init_iterator m1 l index) (fun it => Res.ok (some it, m1))

/-- The node-release loop of linked_list_delete. -/
def deleteLoop (m : Mem) (curr : Link) (fuel : Nat) : Res Mem :=
  match fuel with
  | 0 => Res.timeout
  | fuel + 1 =>
    match curr with
    | Link.null => Res.ok m
    | Link.junk => Res.crash
    | Link.ptr a =>
      match m.heap a with
      | none => Res.crash
      | some nd => deleteLoop (freeAt m a) nd.next fuel

/-- linked_list_delete: release every node then the header. -/
def linked_list_delete (m : Mem) (ll : Option LL2) (fuel : Nat) : Res (Bool × Mem) :=
  match ll with
  | none => Res.ok (false, m)
  | some l => Res.bind (deleteLoop m l.head fuel) (fun m' => Res.ok (true, m'))

/-- linked_list_create of the level-2 variant.  Unlike the level-1 copy
it performs no registration check: with no malloc function registered the
call goes through a NULL function pointer (undefined behaviour).  mreg
records whether registration has happened. -/
def linked_list_create (mreg : Bool) (sched : Nat → Bool) (m : Mem) :
    Res (Option LL2 × Mem) :=
  if mreg = false then Res.crash
  else
    match memAllocRaw sched m with
    | (none, m') => Res.ok (none, m')
    | (some _, m') => Res.ok (some { head := Link.null, tail := Link.null, size := 0 }, m')

end level2

/-! ## Queue (level2/queue.c) -/

/-- struct queue: a thin wrapper holding the level-2 list pointer. -/
structure Q where
  ll : Option level2.LL2
deriving DecidableEq

/-- queue_create.  The header malloc is checked, but the result of
linked_list_create is stored without a check: a queue whose list pointer
is NULL is returned when only the inner creation fails. -/
def queue_create (mreg : Bool) (sched : Nat → Bool) (m : Mem) : Res (Option Q × Mem) :=
  if mreg = false then Res.crash
  else
    match memAllocRaw sched m with
    | (none, m') => Res.ok (none, m')
    | (some _, m') =>
      Res.bind (level2.linked_list_create mreg sched m') (fun r =>
        Res.ok (some { ll := r.fst }, r.snd))

/-- queue_delete: delete the wrapped list, then the header. -/
def queue_delete (m : Mem) (q : Option Q) (fuel : Nat) : Res (Bool × Mem) :=
  match q with
  | none => Res.ok (false, m)
  | some q' => Res.bind (level2.linked_list_delete m q'.ll fuel) (fun r => Res.ok (true, r.snd))

/-- queue_push: insert_end on the wrapped list. -/
def queue_push (sched : Nat → Bool) (m : Mem) (q : Option Q) (data : Nat) :
    Res (Bool × Option Q × Mem) :=
  match q with
  | none => Res.ok (false, none, m)
  | some q' =>
    Res.bind (level2.linked_list_insert_end sched m q'.ll data) (fun r =>
      Res.ok (r.fst, some { ll := r.snd.fst }, r.snd.snd))

/-- queue_size: delegate to the list, SIZE_MAX for NULL. -/
def queue_size (q : Option Q) : Nat :=
  match q with
  | none => SIZE_MAX
  | some q' => level2.linked_list_size q'.ll

/-- queue_has_next: whether the size is positive. -/
def queue_has_next (q : Option Q) : Bool :=
  match q with
  | none => false
  | some _ => decide (0 < queue_size q)

/-- queue_next: read the front value through a freshly created (and
leaked) iterator without removing it. -/
def queue_next (sched : Nat → Bool) (m : Mem) (q : Option Q) :
    Res (Bool × Option Nat × Mem) :=
  if queue_has_next q = false then Res.ok (false, none, m)
  else
    match q with
    | none => Res.ok (false, none, m)
    | some q' =>
      Res.bind (level2.linked_list_create_iterator sched m q'.ll 0) (fun r =>
        match r.fst with
        | none => Res.ok (false, none, r.snd)
        | some it => Res.ok (true, some it.data, r.snd))

/-- queue_pop: read the front value via queue_next, then remove index 0;
the returned boolean is the removal's result. -/
def queue_pop (sched : Nat → Bool) (m : Mem) (q : Option Q) :
    Res (Bool × Option Nat × Option Q × Mem) :=
  match q with
  | none => Res.ok (false, none, none, m)
  | some q' =>
    Res.bind (queue_next sched m (some q')) (fun r =>
      match r.fst with
      | false => Res.ok (false, r.snd.fst, some q', r.snd.snd)
      | true =>
        Res.bind (level2.linked_list_remove r.snd.snd q'.ll 0) (fun rr =>
          Res.ok (rr.fst, r.snd.fst, some { ll := rr.snd.fst }, rr.snd.snd)))

/-! ## Level-1 linked list (the unnamed linked_list.c of the level-1 stage)

Head-only tracking.  The registration check in create is present in this
variant; insert walks to the splice point before allocating. -/

namespace level1

/-- struct linked_list of the level-1 variant. -/
structure LL1 where
  head : Link
  size : Nat
deriving DecidableEq

/-- linked_list_size: size, or SIZE_MAX for a NULL list. -/
def linked_list_size (ll : Option LL1) : Nat :=
  match ll with
  | none => SIZE_MAX
  | some l => l.size

/-- linked_list_create of the level-1 variant: NULL when either function
reference is unregistered, otherwise a malloc'd empty header. -/
def linked_list_create (mreg freg : Bool) (sched : Nat → Bool) (m : Mem) :
    Res (Option LL1 × Mem) :=
  if mreg = false ∨ freg = false then Res.ok (none, m)
  else
    match memAllocRaw sched m with
    | (none, m') => Res.ok (none, m')
    | (some _, m') => Res.ok (some { head := Link.null, size := 0 }, m')

/-- The walk `prev = NULL; curr = head; while (index--) { prev = curr;
curr = curr->next; }` shared by insert and create_iterator, with one
dereference of curr per step.  Returns (prev, curr). -/
def walk1 (m : Mem) (prev curr : Link) (i : Nat) : Res (Link × Link) :=
  match i with
  | 0 => Res.ok (prev, curr)
  | i + 1 => Res.bind (readNode m curr) (fun nd => walk1 m curr nd.next i)

/-- linked_list_insert of the level-1 variant.  The walk happens before
the allocation; the malloc'd node is dereferenced without a NULL check,
and its next field is explicitly set to NULL before splicing. -/
def linked_list_insert (sched : Nat → Bool) (m : Mem) (ll : Option LL1)
    (index : Nat) (data : Nat) : Res (Bool × Option LL1 × Mem) :=
  match ll with
  | none => Res.ok (false, none, m)
  | some l =>
    if l.size < index then Res.ok (false, some l, m)
    else
      Res.bind (walk1 m Link.null l.head index) (fun pc =>
        match mallocNode sched m with
        | (none, _) => Res.crash
        | (some a, m1) =>
          let m2 := setNextAt (setData m1 a data) a Link.null
          if l.head = Link.null then
            Res.ok (true, some { head := Link.ptr a, size := l.size + 1 }, m2)
          else
            match pc.fst with
            | Link.null =>
              let m3 := setNextAt m2 a l.head
              Res.ok (true, some { head := Link.ptr a, size := l.size + 1 }, m3)
            | prev =>
              Res.bind (readPtr prev) (fun p =>
                Res.bind (readNode m2 prev) (fun pnd =>
                  let m3 := setNextAt m2 a pnd.next
                  let m4 := setNextAt m3 p (Link.ptr a)
                  Res.ok (true, some { l with size := l.size + 1 }, m4))))

/-- linked_list_insert_end: insert at the current size. -/
def linked_list_insert_end (sched : Nat → Bool) (m : Mem) (ll : Option LL1)
    (data : Nat) : Res (Bool × Option LL1 × Mem) :=
  match ll with
  | none => Res.ok (false, none, m)
  | some l => linked_list_insert sched m (some l) l.size data

/-- linked_list_insert_front: insert at index 0. -/
def linked_list_insert_front (sched : Nat → Bool) (m : Mem) (ll : Option LL1)
    (data : Nat) : Res (Bool × Option LL1 × Mem) :=
  linked_list_insert sched m ll 0 data

/-- linked_list_find of the level-1 variant (same scan as level 2). -/
def linked_list_find (m : Mem) (ll : Option LL1) (data : Nat) (fuel : Nat) : Res Nat :=
  match ll with
  | none => Res.ok SIZE_MAX
  | some l => level2.findLoop m data l.head fuel 0

/-- linked_list_remove of the level-1 variant. -/
def linked_list_remove (m : Mem) (ll : Option LL1) (index : Nat) :
    Res (Bool × Option LL1 × Mem) :=
  match ll with
  | none => Res.ok (false, none, m)
  | some l =>
    if l.size ≤ index then Res.ok (false, some l, m)
    else if index = 0 then
      Res.bind (readPtr l.head) (fun a =>
        Res.bind (readNode m l.head) (fun nd =>
          Res.ok (true, some { l with head := nd.next, size := l.size - 1 }, freeAt m a)))
    else
      Res.bind (walk1 m Link.null l.head index) (fun pc =>
        Res.bind (readPtr pc.fst) (fun p =>
          Res.bind (readNode m pc.fst) (fun pnd =>
            Res.bind (readPtr pnd.next) (fun ta =>
              Res.bind (readNode m pnd.next) (fun tnd =>
                let m1 := setNextAt m p tnd.next
                Res.ok (true, some { l with size := l.size - 1 }, freeAt m1 ta))))))

/-- linked_list_create_iterator of the level-1 variant.  For a positive
index the source walks `index` steps and then stores prev - the node at
position index - 1 - as current_node while recording current_index as
index. -/
def linked_list_create_iterator (sched : Nat → Bool) (m : Mem) (ll : Option LL1)
    (index : Nat) : Res (Option level2.Iterator × Mem) :=
  match ll with
  | none => Res.ok (none, m)
  | some l =>
    if l.size ≤ index then Res.ok (none, m)
    else
      match memAllocRaw sched m with
      | (none, _) => Res.crash
      | (some _, m1) =>
        if index = 0 then
          Res.bind (readNode m1 l.head) (fun nd =>
            Res.ok (some { current_index := index, current_node := l.head, data := nd.data }, m1))
        else
          Res.bind (walk1 m1 Link.null l.head index) (fun pc =>
            Res.bind (readNode m1 pc.fst) (fun pnd =>
              Res.ok (some { current_index := index, current_node := pc.fst, data := pnd.data }, m1)))

end level1

/-! ## Graph rows and BFS (level2/queue_performance.c) -/

/-- struct row: adjacency size, the capacity of the current block of the
adjacency array, its contents in order, and the visited flag. -/
structure Row where
  size : Nat
  cap : Nat
  cells : List Nat
  visited : Bool
deriving DecidableEq

/-- add_edge(i, j): lazily allocate a 16-slot row, or append, growing by
16 slots when the current size is congruent to 15 mod 16.  The second
component lists the adjacency-array block sizes allocated during the
call; a store beyond the allocated capacity is undefined behaviour. -/
def add_edge (rows : Nat → Option Row) (i j : Nat) :
    Res ((Nat → Option Row) × List Nat) :=
  match rows i with
  | none =>
    Res.ok (Function.update rows i (some { size := 1, cap := 16, cells := [j], visited := false }), [16])
  | some r =>
    if r.size % 16 = 15 then
      let newcap := r.size + 1 + 16
      if r.size < newcap then
        Res.ok (Function.update rows i
          (some { r with cap := newcap, cells := r.cells ++ [j], size := r.size + 1 }), [newcap])
      else Res.crash
    else
      if r.size < r.cap then
        Res.ok (Function.update rows i
          (some { r with cells := r.cells ++ [j], size := r.size + 1 }), [])
      else Res.crash

/-- Fold add_edge over an edge list, accumulating the allocated blocks. -/
def add_edges (rows : Nat → Option Row) (es : List (Nat × Nat)) :
    Res ((Nat → Option Row) × List Nat) :=
  match es with
  | [] => Res.ok (rows, [])
  | e :: rest =>
    Res.bind (add_edge rows e.fst e.snd) (fun r =>
      Res.bind (add_edges r.fst rest) (fun rr =>
        Res.ok (rr.fst, r.snd ++ rr.snd)))

/-- The adjacency-push loop of breadth_first_search: for each adjacent
node, record whether it is the target and push it; a failed push makes
the whole search return 1 (an early true).  Returns
(early-return taken, found flag, queue, heap). -/
def pushLoop (sched : Nat → Bool) (tgt : Nat) (cells : List Nat) (found : Bool)
    (q : Option Q) (m : Mem) : Res (Bool × Bool × Option Q × Mem) :=
  match cells with
  | [] => Res.ok (false, found, q, m)
  | d :: rest =>
    let found' := if tgt = d then true else found
    Res.bind (queue_push sched m q d) (fun r =>
      match r.fst with
      | false => Res.ok (true, found', r.snd.fst, r.snd.snd)
      | true => pushLoop sched tgt rest found' r.snd.fst r.snd.snd)

/-- The main loop of breadth_first_search.  Returns
(found, node_count, rows, queue, heap, early-return taken). -/
def bfsLoop (sched : Nat → Bool) (tgt : Nat) (fuel : Nat) (rows : Nat → Option Row)
    (found : Bool) (next_node cnt : Nat) (q : Option Q) (m : Mem) :
    Res (Bool × Nat × (Nat → Option Row) × Option Q × Mem × Bool) :=
  match fuel with
  | 0 => Res.timeout
  | fuel + 1 =>
    if found then Res.ok (found, cnt, rows, q, m, false)
    else
      match rows next_node with
      | none =>
        Res.bind (queue_pop sched m q) (fun r =>
          match r.fst with
          | false => Res.ok (found, cnt + 1, rows, r.snd.snd.fst, r.snd.snd.snd, false)
          | true =>
            bfsLoop sched tgt fuel rows found ((r.snd.fst).getD next_node) (cnt + 1)
              r.snd.snd.fst r.snd.snd.snd)
      | some row =>
        if row.visited then
          Res.bind (queue_pop sched m q) (fun r =>
            match r.fst with
            | false => Res.ok (found, cnt + 1, rows, r.snd.snd.fst, r.snd.snd.snd, false)
            | true =>
              bfsLoop sched tgt fuel rows found ((r.snd.fst).getD next_node) (cnt + 1)
                r.snd.snd.fst r.snd.snd.snd)
        else
          let rows' := Function.update rows next_node (some { row with visited := true })
          Res.bind (pushLoop sched tgt row.cells found q m) (fun pr =>
            match pr.fst with
            | true => Res.ok (pr.snd.fst, cnt, rows', pr.snd.snd.fst, pr.snd.snd.snd, true)
            | false =>
              Res.bind (queue_pop sched pr.snd.snd.snd pr.snd.snd.fst) (fun r =>
                match r.fst with
                | false =>
                  Res.ok (pr.snd.fst, cnt, rows', r.snd.snd.fst, r.snd.snd.snd, false)
                | true =>
                  bfsLoop sched tgt fuel rows' pr.snd.fst ((r.snd.fst).getD next_node)
                    (cnt + 1) r.snd.snd.fst r.snd.snd.snd))

/-- breadth_first_search(i, j): create a queue, run the loop, delete the
queue.  Returns (success flag, node_count, updated rows, heap); on the
early push-failure path the source returns 1 (true) without deleting the
queue. -/
def breadth_first_search (sched : Nat → Bool) (rows : Nat → Option Row)
    (i j : Nat) (fuel : Nat) (m : Mem) :
    Res (Bool × Nat × (Nat → Option Row) × Mem) :=
  Res.bind (queue_create true sched m) (fun qc =>
    Res.bind (bfsLoop sched j fuel rows false i 0 qc.fst qc.snd) (fun r =>
      match r.snd.snd.snd.snd.snd with
      | true => Res.ok (true, r.snd.fst, r.snd.snd.fst, r.snd.snd.snd.snd.fst)
      | false =>
        Res.bind (queue_delete r.snd.snd.snd.snd.fst r.snd.snd.snd.fst fuel) (fun d =>
          Res.ok (r.fst, r.snd.fst, r.snd.snd.fst, d.snd))))

/-- The fixed test graph with exactly the edges 1→2, 2→3, 3→4. -/
def rowsG : Nat → Option Row := fun n =>
  if n = 1 then some { size := 1, cap := 16, cells := [2], visited := false }
  else if n = 2 then some { size := 1, cap := 16, cells := [3], visited := false }
  else if n = 3 then some { size := 1, cap := 16, cells := [4], visited := false }
  else none

/-! ## Heap-chain abstraction

`chainAddrs m lk vs as` says that starting from link lk the heap holds a
chain of nodes at the (distinct) addresses `as` carrying the values `vs`
in order.  Nothing is required of the link leaving the last node: the
level-2 append branch leaves it indeterminate. -/

/-- The heap chain relation between a link, a value list and the list of
node addresses realizing it. -/
def chainAddrs (m : Mem) (lk : Link) (vs : List Nat) (as : List Nat) : Prop :=
  match vs, as with
  | [], [] => True
  | v :: vr, a :: ar =>
    lk = Link.ptr a ∧ ∃ nd, m.heap a = some nd ∧ nd.data = v ∧ chainAddrs m nd.next vr ar
  | _, _ => False

theorem chainAddrs_nil_right (m : Mem) (lk : Link) (as : List Nat)
    (h : chainAddrs m lk [] as) : as = [] := by
  cases as with
  | nil => rfl
  | cons a ar => exact absurd h (by simp [chainAddrs])

theorem chainAddrs_length (m : Mem) : ∀ (vs as : List Nat) (lk : Link),
    chainAddrs m lk vs as → as.length = vs.length := by
  intro vs
  induction vs with
  | nil => intro as lk h; rw [chainAddrs_nil_right m lk as h]
  | cons v vr ih =>
    intro as lk h
    cases as with
    | nil => exact absurd h (by simp [chainAddrs])
    | cons a ar =>
      obtain ⟨-, nd, -, -, hrest⟩ := h
      simpa using ih ar nd.next hrest

theorem chainAddrs_heap (m : Mem) : ∀ (vs as : List Nat) (lk : Link),
    chainAddrs m lk vs as → ∀ a ∈ as, ∃ nd, m.heap a = some nd := by
  intro vs
  induction vs with
  | nil => intro as lk h; rw [chainAddrs_nil_right m lk as h]; simp
  | cons v vr ih =>
    intro as lk h a ha
    cases as with
    | nil => exact absurd h (by simp [chainAddrs])
    | cons b ar =>
      obtain ⟨-, nd, hb, -, hrest⟩ := h
      rcases List.mem_cons.mp ha with rfl | ha'
      · exact ⟨nd, hb⟩
      · exact ih ar nd.next hrest a ha'

theorem chainAddrs_congr (m m' : Mem) : ∀ (vs as : List Nat) (lk : Link),
    (∀ a ∈ as, m'.heap a = m.heap a) →
    chainAddrs m lk vs as → chainAddrs m' lk vs as := by
  intro vs
  induction vs with
  | nil => intro as lk _ h; rw [chainAddrs_nil_right m lk as h]; trivial
  | cons v vr ih =>
    intro as lk hag h
    cases as with
    | nil => exact absurd h (by simp [chainAddrs])
    | cons a ar =>
      obtain ⟨hlk, nd, ha, hd, hrest⟩ := h
      refine ⟨hlk, nd, ?_, hd, ?_⟩
      · rw [hag a (List.mem_cons_self a ar)]; exact ha
      · exact ih ar nd.next (fun c hc => hag c (List.mem_cons_of_mem a hc)) hrest

theorem walkNext_chain (m : Mem) : ∀ (i : Nat) (vs as : List Nat) (lk : Link),
    chainAddrs m lk vs as → i < vs.length →
    ∃ a nd, as.get? i = some a ∧ level2.walkNext m lk i = Res.ok (Link.ptr a) ∧
      m.heap a = some nd ∧ vs.get? i = some nd.data := by
  intro i
  induction i with
  | zero =>
    intro vs as lk h hlen
    cases vs with
    | nil => simp at hlen
    | cons v vr =>
      cases as with
      | nil => exact absurd h (by simp [chainAddrs])
      | cons a ar =>
        obtain ⟨hlk, nd, ha, hd, -⟩ := h
        exact ⟨a, nd, rfl, by simp [level2.walkNext, hlk], ha, by simp [hd]⟩
  | succ i ih =>
    intro vs as lk h hlen
    cases vs with
    | nil => simp at hlen
    | cons v vr =>
      cases as with
      | nil => exact absurd h (by simp [chainAddrs])
      | cons a ar =>
        obtain ⟨hlk, nd, ha, hd, hrest⟩ := h
        obtain ⟨b, nd', h1, h2, h3, h4⟩ := ih vr ar nd.next hrest (by simpa using hlen)
        refine ⟨b, nd', by simpa using h1, ?_, h3, by simpa using h4⟩
        simp [level2.walkNext, hlk, readNode, ha, h2]

theorem readNode_no_timeout (m : Mem) (lk : Link) : readNode m lk ≠ Res.timeout := by
  cases lk with
  | ptr a => cases h : m.heap a <;> simp [readNode, h]
  | null => simp [readNode]
  | junk => simp [readNode]

theorem walkNext_no_timeout (m : Mem) : ∀ (i : Nat) (lk : Link),
    level2.walkNext m lk i ≠ Res.timeout := by
  intro i
  induction i with
  | zero => intro lk; simp [level2.walkNext]
  | succ i ih =>
    intro lk
    simp only [level2.walkNext]
    cases h : readNode m lk with
    | ok nd => simpa [Res.bind] using ih nd.next
    | crash => simp [Res.bind]
    | timeout => exact absurd h (readNode_no_timeout m lk)

theorem chainAddrs_snoc (m m' : Mem) (v a b : Nat) :
    ∀ (vs as : List Nat) (lk : Link),
    chainAddrs m lk vs as →
    as.getLast? = some b →
    as.Nodup →
    (∀ c ∈ as, c ≠ b → m'.heap c = m.heap c) →
    (∀ nd, m.heap b = some nd → m'.heap b = some { data := nd.data, next := Link.ptr a }) →
    (∃ nd, m'.heap a = some nd ∧ nd.data = v) →
    chainAddrs m' lk (vs ++ [v]) (as ++ [a]) := by
  intro vs
  induction vs with
  | nil =>
    intro as lk h hlast
    rw [chainAddrs_nil_right m lk as h] at hlast
    simp at hlast
  | cons w wr ih =>
    intro as lk h hlast hnd hag hb ha
    cases as with
    | nil => exact absurd h (by simp [chainAddrs])
    | cons c ar =>
      obtain ⟨hlk, nd, hc, hdata, hrest⟩ := h
      cases wr with
      | nil =>
        have har : ar = [] := chainAddrs_nil_right m nd.next ar hrest
        subst har
        have hcb : c = b := by simpa using hlast
        subst hcb
        obtain ⟨nda, hnda, hda⟩ := ha
        exact ⟨hlk, { data := nd.data, next := Link.ptr a }, hb nd hc, hdata,
          rfl, nda, hnda, hda, trivial⟩
      | cons w' wr' =>
        cases ar with
        | nil => exact absurd hrest (by simp [chainAddrs])
        | cons c' ar' =>
          have hlast' : (c' :: ar').getLast? = some b := by
            rwa [List.getLast?_cons_cons] at hlast
          have hbmem : b ∈ c' :: ar' := List.mem_of_mem_getLast? hlast'
          have hcb : c ≠ b := by
            intro hcb
            subst hcb
            exact (List.nodup_cons.mp hnd).1 hbmem
          refine ⟨hlk, nd, ?_, hdata, ?_⟩
          · rw [hag c (List.mem_cons_self c _) hcb]; exact hc
          · exact ih (c' :: ar') nd.next hrest hlast' (List.nodup_cons.mp hnd).2
              (fun x hx hxb => hag x (List.mem_cons_of_mem c hx) hxb) hb ha

/-- The representation invariant of a level-2 list: the heap realizes the
value list vs along the distinct addresses as, the recorded size matches,
every chain address is below the allocation frontier, and when the list
is nonempty tail points at the last chain node. -/
def llInv (m : Mem) (l : level2.LL2) (vs as : List Nat) : Prop :=
  chainAddrs m l.head vs as ∧ l.size = vs.length ∧ as.Nodup ∧
    (∀ a ∈ as, a < m.next_addr) ∧
    (∀ b, as.getLast? = some b → l.tail = Link.ptr b)

/-- The queue abstraction: a non-null queue wrapping a list satisfying
the representation invariant. -/
def QInv (m : Mem) (q : Q) (vs as : List Nat) : Prop :=
  ∃ l, q.ll = some l ∧ llInv m l vs as

@[simp] theorem setData_heap_self (m : Mem) (a v : Nat) :
    (setData m a v).heap a = (m.heap a).map (fun nd => { nd with data := v }) := by
  simp [setData, Function.update_same]

theorem setData_heap_ne (m : Mem) (a v c : Nat) (h : c ≠ a) :
    (setData m a v).heap c = m.heap c := by
  simp [setData, Function.update_noteq h]

@[simp] theorem setData_next_addr (m : Mem) (a v : Nat) :
    (setData m a v).next_addr = m.next_addr := rfl

@[simp] theorem setNextAt_heap_self (m : Mem) (a : Nat) (l : Link) :
    (setNextAt m a l).heap a = (m.heap a).map (fun nd => { nd with next := l }) := by
  simp [setNextAt, Function.update_same]

theorem setNextAt_heap_ne (m : Mem) (a : Nat) (l : Link) (c : Nat) (h : c ≠ a) :
    (setNextAt m a l).heap c = m.heap c := by
  simp [setNextAt, Function.update_noteq h]

@[simp] theorem setNextAt_next_addr (m : Mem) (a : Nat) (l : Link) :
    (setNextAt m a l).next_addr = m.next_addr := rfl

@[simp] theorem freeAt_heap_self (m : Mem) (a : Nat) : (freeAt m a).heap a = none := by
  simp [freeAt, Function.update_same]

theorem freeAt_heap_ne (m : Mem) (a c : Nat) (h : c ≠ a) :
    (freeAt m a).heap c = m.heap c := by
  simp [freeAt, Function.update_noteq h]

@[simp] theorem freeAt_next_addr (m : Mem) (a : Nat) :
    (freeAt m a).next_addr = m.next_addr := rfl

theorem mallocNode_schedT (m : Mem) :
    mallocNode schedT m =
      (some m.next_addr,
       { heap := Function.update m.heap m.next_addr (some { data := 0, next := Link.junk }),
         next_addr := m.next_addr + 1, calls := m.calls + 1 }) := by
  simp [mallocNode, memAllocRaw, schedT]

/-- Appending at the end of a level-2 list via insert_end succeeds under
the representation invariant and extends the abstract value list; the new
tail node's next field keeps its indeterminate contents. -/
theorem insert_end2_spec (m : Mem) (l : level2.LL2) (vs as : List Nat) (v : Nat)
    (h : llInv m l vs as) :
    ∃ l' m', level2.linked_list_insert_end schedT m (some l) v =
        Res.ok (true, some l', m') ∧
      llInv m' l' (vs ++ [v]) (as ++ [m.next_addr]) ∧
      m'.next_addr = m.next_addr + 1 := by
  obtain ⟨hch, hsz, hnd, hfr, htl⟩ := h
  rcases Nat.eq_zero_or_pos l.size with hz | hpos
  · have hvs : vs = [] := by
      cases vs with
      | nil => rfl
      | cons a b => rw [hz] at hsz; exact absurd hsz.symm (by simp)
    subst hvs
    have has : as = [] := chainAddrs_nil_right m l.head as hch
    subst has
    simp only [level2.linked_list_insert_end, level2.linked_list_insert,
      mallocNode_schedT, hz]
    simp only [Nat.lt_irrefl, if_false, if_pos rfl, ite_true, ite_false, reduceIte]
    refine ⟨_, _, rfl, ?_, ?_⟩
    · refine ⟨⟨rfl, ?_⟩, by simp [hz], by simp, ?_, ?_⟩
      · refine ⟨{ data := v, next := l.head }, ?_, rfl, trivial⟩
        rw [setNextAt_heap_self, setData_heap_self]
        simp [Function.update_same]
      · intro a ha
        simp only [List.nil_append, List.mem_singleton] at ha
        simp [ha]
      · intro b hb
        simp only [List.nil_append, List.getLast?_singleton, Option.some_inj] at hb
        simp [hb]
    · rfl
  · have hvs : vs ≠ [] := by
      intro hv
      rw [hv] at hsz
      simp at hsz
      omega
    have has : as ≠ [] := by
      intro ha
      have hl := chainAddrs_length m vs as l.head hch
      rw [ha] at hl
      exact hvs (List.length_eq_zero.mp (by simpa using hl.symm))
    obtain ⟨b, hb⟩ : ∃ b, as.getLast? = some b := by
      cases hgl : as.getLast? with
      | none => exact absurd (List.getLast?_eq_none_iff.mp hgl) has
      | some x => exact ⟨x, rfl⟩
    have htail : l.tail = Link.ptr b := htl b hb
    have hbmem : b ∈ as := List.mem_of_mem_getLast? hb
    obtain ⟨ndb, hndb⟩ := chainAddrs_heap m vs as l.head hch b hbmem
    have hbna : b ≠ m.next_addr := Nat.ne_of_lt (hfr b hbmem)
    have hszpos : l.size ≠ 0 := Nat.pos_iff_ne_zero.mp hpos
    simp only [level2.linked_list_insert_end, level2.linked_list_insert,
      mallocNode_schedT, htail]
    simp only [Nat.lt_irrefl, if_false, if_neg hszpos, if_pos rfl, readPtr,
      Res.bind_ok, ite_false, ite_true, reduceIte]
    rw [setData_heap_ne _ _ _ _ hbna,
      show ({ heap := Function.update m.heap m.next_addr (some { data := 0, next := Link.junk }),
              next_addr := m.next_addr + 1, calls := m.calls + 1 } : Mem).heap b = m.heap b from
        Function.update_noteq hbna _ _,
      hndb]
    refine ⟨_, _, rfl, ?_, ?_⟩
    · refine ⟨?_, by simp [hsz], ?_, ?_, ?_⟩
      · refine chainAddrs_snoc m _ v m.next_addr b vs as l.head hch hb hnd ?_ ?_ ?_
        · intro c hc hcb
          have hcna : c ≠ m.next_addr := Nat.ne_of_lt (hfr c hc)
          rw [setNextAt_heap_ne _ _ _ _ hcb, setData_heap_ne _ _ _ _ hcna]
          exact Function.update_noteq hcna _ _
        · intro nd hnd'
          rw [setNextAt_heap_self, setData_heap_ne _ _ _ _ hbna]
          simp only [Function.update_noteq hbna, hnd']
          rfl
        · refine ⟨{ data := v, next := Link.junk }, ?_, rfl⟩
          rw [setNextAt_heap_ne _ _ _ _ hbna.symm, setData_heap_self]
          simp [Function.update_same]
      · rw [List.nodup_append]
        refine ⟨hnd, by simp, ?_⟩
        intro x hx hx'
        simp only [List.mem_singleton] at hx'
        exact absurd hx' (Nat.ne_of_lt (hfr x hx))
      · intro a ha
        rcases List.mem_append.mp ha with ha' | ha'
        · simp only [setNextAt_next_addr, setData_next_addr]
          exact Nat.lt_succ_of_lt (hfr a ha')
        · simp only [List.mem_singleton] at ha'
          simp [ha']
      · intro b' hb'
        rw [List.getLast?_concat] at hb'
        cases hb'
        rfl
    · rfl

theorem queue_create_spec (m : Mem) :
    ∃ q m', queue_create true schedT m = Res.ok (some q, m') ∧ QInv m' q [] [] := by
  simp only [queue_create, level2.linked_list_create, memAllocRaw, schedT,
    if_true, ite_true, reduceIte, Res.bind_ok]
  exact ⟨_, _, rfl, ⟨_, rfl, trivial, rfl, by simp, by simp, by simp⟩⟩

theorem queue_push_spec (m : Mem) (q : Q) (vs as : List Nat) (v : Nat)
    (h : QInv m q vs as) :
    ∃ q' m', queue_push schedT m (some q) v = Res.ok (true, some q', m') ∧
      QInv m' q' (vs ++ [v]) (as ++ [m.next_addr]) := by
  obtain ⟨l, hql, hinv⟩ := h
  obtain ⟨l', m', heq, hinv', -⟩ := insert_end2_spec m l vs as v hinv
  refine ⟨{ ll := some l' }, m', ?_, ⟨l', rfl, hinv'⟩⟩
  simp only [queue_push, hql, heq, Res.bind_ok]

theorem queue_pop_empty (m : Mem) (q : Q) (h : QInv m q [] []) :
    queue_pop schedT m (some q) = Res.ok (false, none, some q, m) := by
  obtain ⟨l, hql, hch, hsz, -, -, -⟩ := h
  have hhn : queue_has_next (some q) = false := by
    simp [queue_has_next, queue_size, level2.linked_list_size, hql, hsz]
  simp [queue_pop, queue_next, hhn, Res.bind_ok]

theorem queue_pop_spec (m : Mem) (q : Q) (v : Nat) (vs : List Nat) (a : Nat)
    (as : List Nat) (h : QInv m q (v :: vs) (a :: as)) :
    ∃ q' m', queue_pop schedT m (some q) = Res.ok (true, some v, some q', m') ∧
      QInv m' q' vs as ∧ queue_size (some q') + 1 = queue_size (some q) := by
  obtain ⟨l, hql, hch, hsz, hnd, hfr, htl⟩ := h
  obtain ⟨hlk, nda, hha, hda, hrest⟩ := hch
  have hsz' : l.size = vs.length + 1 := by simpa using hsz
  have hhn : queue_has_next (some q) = true := by
    simp [queue_has_next, queue_size, level2.linked_list_size, hql, hsz']
  have hanotas : a ∉ as := (List.nodup_cons.mp hnd).1
  have heq : queue_pop schedT m (some q) =
      Res.ok (true, some v, some { ll := some { head := nda.next, tail := l.tail, size := l.size - 1 } },
        freeAt { m with next_addr := m.next_addr + 1, calls := m.calls + 1 } a) := by
    simp only [queue_pop, queue_next, hhn, Bool.true_eq_false, if_false, ite_false,
      reduceIte, level2.linked_list_create_iterator, hql,
      level2._linked_list_init_iterator, level2.walkNext, memAllocRaw, schedT,
      if_true, ite_true, Res.bind_ok, level2.linked_list_remove]
    simp only [hsz', Nat.le_zero, Nat.succ_ne_zero, if_false, ite_false, reduceIte,
      if_pos rfl, hlk, readNode, readPtr, hha, Res.bind_ok, hda]
  refine ⟨_, _, heq, ?_, ?_⟩
  · refine ⟨{ head := nda.next, tail := l.tail, size := l.size - 1 }, rfl, ?_,
      by simp [hsz'], (List.nodup_cons.mp hnd).2, ?_, ?_⟩
    · refine chainAddrs_congr m _ vs as nda.next ?_ hrest
      intro c hc
      exact freeAt_heap_ne _ _ _ (fun hca => hanotas (hca ▸ hc))
    · intro c hc
      simp only [freeAt_next_addr]
      exact Nat.lt_succ_of_lt (hfr c (List.mem_cons_of_mem a hc))
    · intro b hb
      cases as with
      | nil => simp at hb
      | cons c rest =>
        exact htl b (by rwa [List.getLast?_cons_cons])
  · simp [queue_size, level2.linked_list_size, hql, hsz']

/-- A one-element queue state used to exercise the nonempty-pop case. -/
def memW : Mem :=
  { heap := Function.update (fun _ => none) 0 (some { data := 7, next := Link.null }),
    next_addr := 1, calls := 1 }

/-- The queue over that state holding exactly the value 7. -/
def qW : Q := { ll := some { head := Link.ptr 0, tail := Link.ptr 0, size := 1 } }

/-- C7: for every non-null queue reachable from an empty queue by pushes
and pops (characterized by the abstraction QInv relating the queue to the
list of currently queued values in insertion order), queue_create yields
the empty abstraction, queue_push succeeds and appends the pushed value,
queue_pop on a nonempty queue succeeds and returns exactly the oldest
queued value (first-in-first-out) while removing it, and each successful
queue_pop decreases queue_size by exactly one; queue_pop on an empty
queue fails without touching state. -/
theorem c7_queue_fifo_order :
    (∀ m, ∃ q m', queue_create true schedT m = Res.ok (some q, m') ∧ QInv m' q [] []) ∧
    (∀ m q vs as v, QInv m q vs as →
      ∃ q' m', queue_push schedT m (some q) v = Res.ok (true, some q', m') ∧
        QInv m' q' (vs ++ [v]) (as ++ [m.next_addr])) ∧
    (∀ m q, QInv m q [] [] →
      queue_pop schedT m (some q) = Res.ok (false, none, some q, m)) ∧
    (∀ m q v vs a as, QInv m q (v :: vs) (a :: as) →
      ∃ q' m', queue_pop schedT m (some q) = Res.ok (true, some v, some q', m') ∧
        QInv m' q' vs as ∧ queue_size (some q') + 1 = queue_size (some q)) :=
  ⟨queue_create_spec, queue_push_spec, queue_pop_empty, queue_pop_spec⟩

/-- C7 witness: the four parts of the theorem applied at concrete states:
the empty heap, a freshly created empty queue, and a one-element queue
holding the value 7. -/
theorem c7_queue_fifo_order_witness :
    (∃ q m', queue_create true schedT mem0 = Res.ok (some q, m') ∧ QInv m' q [] []) ∧
    (∃ q' m', queue_push schedT mem0
        (some { ll := some { head := Link.null, tail := Link.null, size := 0 } }) 5 =
        Res.ok (true, some q', m') ∧ QInv m' q' ([] ++ [5]) ([] ++ [mem0.next_addr])) ∧
    (queue_pop schedT mem0
        (some { ll := some { head := Link.null, tail := Link.null, size := 0 } }) =
      Res.ok (false, none,
        some { ll := some { head := Link.null, tail := Link.null, size := 0 } }, mem0)) ∧
    (∃ q' m', queue_pop schedT memW (some qW) = Res.ok (true, some 7, some q', m') ∧
      QInv m' q' [] [] ∧ queue_size (some q') + 1 = queue_size (some qW)) :=
  ⟨c7_queue_fifo_order.1 mem0,
   c7_queue_fifo_order.2.1 mem0 _ [] [] 5 ⟨_, rfl, trivial, rfl, by simp, by simp, by simp⟩,
   c7_queue_fifo_order.2.2.1 mem0 _ ⟨_, rfl, trivial, rfl, by simp, by simp, by simp⟩,
   c7_queue_fifo_order.2.2.2 memW qW 7 [] 0 []
     ⟨_, rfl, ⟨rfl, { data := 7, next := Link.null }, by simp [memW], rfl, trivial⟩,
      rfl, by simp, by simp [memW], by simp [qW]⟩⟩

/-! ## Concrete runs deciding the claims about specific executions -/

/-- A level-2 list built by bounds-respecting operations (create, two
insert_end calls) together with the heap cell its tail points at. -/
def c2_run_append : Option (level2.LL2 × Option Node) :=
  match level2.linked_list_create true schedT mem0 with
  | Res.ok (ll, m) =>
    match level2.linked_list_insert_end schedT m ll 7 with
    | Res.ok (_, ll1, m1) =>
      match level2.linked_list_insert_end schedT m1 ll1 9 with
      | Res.ok (_, ll2, m2) =>
        match ll2 with
        | some l =>
          some (l, match l.tail with | Link.ptr a => m2.heap a | _ => none)
        | none => none
      | _ => none
    | _ => none
  | _ => none

/-- The level-2 list after create, insert_front 5, remove 0. -/
def c2_run_remove_last : Option level2.LL2 :=
  match level2.linked_list_create true schedT mem0 with
  | Res.ok (ll, m) =>
    match level2.linked_list_insert_front schedT m ll 5 with
    | Res.ok (_, ll1, m1) =>
      match level2.linked_list_remove m1 ll1 0 with
      | Res.ok (_, ll2, _) => ll2
      | _ => none
    | _ => none
  | _ => none

/-- The level-1 list [10, 20] (built by create and two in-bounds inserts),
its iterator created at index 1, and the result of find(20). -/
def c4_run : Option (level2.Iterator × Res Nat) :=
  match level1.linked_list_create true true schedT mem0 with
  | Res.ok (ll, m) =>
    match level1.linked_list_insert schedT m ll 0 10 with
    | Res.ok (_, ll1, m1) =>
      match level1.linked_list_insert schedT m1 ll1 1 20 with
      | Res.ok (_, ll2, m2) =>
        match level1.linked_list_create_iterator schedT m2 ll2 1 with
        | Res.ok (some it, _) => some (it, level1.linked_list_find m2 ll2 20 10)
        | _ => none
      | _ => none
    | _ => none
  | _ => none

/-- C1: on the slab-growth path of bump_ptr_allocator_malloc the source
returns `slabs[slab_ptr].curr`, the cursor value after the retried
allocation, instead of the block's start.  On the default configuration,
after filling the first 4096-byte slab, an 8-byte request is served from
the new 8192-byte slab at its base 4096 but returns 4096 + 8 = 4104, and
the following 8-byte request also returns 4104: two successful
allocations with identical result pointers, hence overlapping regions
[4104, 4112), and the grow-path result is not the start of its block. -/
theorem c1_growth_returns_end_pointer :
    c1_run = (some 0, some 4104, some 4104) ∧
    c1_run.2.1 = c1_run.2.2 ∧ c1_run.2.1 ≠ some 4096 := by decide

/-- C2: the invariant fails on bounds-respecting operation sequences.
After create, insert_end 7, insert_end 9, the tail node's next field is
the indeterminate malloc contents rather than the null end-of-list
sentinel; and after create, insert_front 5, remove 0, the size is 0 while
tail still holds a (dangling) node pointer instead of being unset. -/
theorem c2_level2_invariant_broken :
    c2_run_append =
      some ({ head := Link.ptr 1, tail := Link.ptr 2, size := 2 },
            some { data := 9, next := Link.junk }) ∧
    Link.junk ≠ Link.null ∧
    c2_run_remove_last = some { head := Link.null, tail := Link.ptr 1, size := 0 } ∧
    Link.ptr 1 ≠ Link.null := by decide

/-- C3 counterexample: on the fixed graph 1→2→3→4 the source's BFS
reports success for the query (1, 4) with a node count of 3, not 4: the
count is incremented once per successful queue_pop (2, 3 and 4), and the
loop exits on the found flag before any further pop. -/
theorem c3_count_is_three_not_four :
    Res.map (fun r => (r.fst, r.snd.fst)) (breadth_first_search schedT rowsG 1 4 20 mem0) =
      Res.ok (true, 3) ∧ (3 : Nat) ≠ 4 := by decide

/-- C3 amended: breadth_first_search(1, 4) on the fixed graph reports
success = true visiting 3 nodes, and breadth_first_search(4, 1) reports
success = false (visiting 1 node: the single failed pop of the empty
queue is counted). -/
theorem c3_bfs_fixed_graph :
    Res.map (fun r => (r.fst, r.snd.fst)) (breadth_first_search schedT rowsG 1 4 20 mem0) =
      Res.ok (true, 3) ∧
    Res.map (fun r => (r.fst, r.snd.fst)) (breadth_first_search schedT rowsG 4 1 20 mem0) =
      Res.ok (false, 1) := by decide

/-- C4: the level-1 create_iterator is off by one for positive indices.
On the list [10, 20], create_iterator(list, 1) records current_index = 1
but stores the node at position 0 and caches its data 10, while the
element at index 1 is 20 (find(20) returns index 1). -/
theorem c4_level1_iterator_off_by_one :
    c4_run = some ({ current_index := 1, current_node := Link.ptr 1, data := 10 },
      Res.ok 1) ∧ (10 : Nat) ≠ 20 := by decide

/-- C5 counterexample: when the queue-header allocation succeeds but the
wrapped list's creation fails (schedule sched01), queue_create returns a
non-null queue whose list pointer is NULL, not the absent result the
claim requires. -/
theorem c5_queue_create_not_null_on_list_failure :
    Res.map Prod.fst (queue_create true sched01 mem0) = Res.ok (some { ll := none }) ∧
    (some { ll := none } : Option Q) ≠ none := by decide

/-- C5 amended: queue_create returns NULL exactly when the queue-header
allocation itself fails; when the header allocation succeeds but the list
creation fails it returns a non-null queue wrapping a NULL list; when
both succeed it returns a queue wrapping a fresh empty level-2 list. -/
theorem c5_queue_create_cases :
    (∀ m, Res.map Prod.fst (queue_create true schedF m) = Res.ok none) ∧
    (Res.map Prod.fst (queue_create true sched01 mem0) = Res.ok (some { ll := none })) ∧
    (∀ m, Res.map Prod.fst (queue_create true schedT m) =
      Res.ok (some { ll := some { head := Link.null, tail := Link.null, size := 0 } })) := by
  refine ⟨fun m => ?_, by decide, fun m => ?_⟩
  · simp [queue_create, level2.linked_list_create, memAllocRaw, schedF, Res.map]
  · simp [queue_create, level2.linked_list_create, memAllocRaw, schedT, Res.map]

/-- C9: seventeen add_edge calls on the same source row i allocate the
adjacency array in exactly two blocks of 16 and 32 slots (the growth
happening on the call that finds the size congruent to 15 mod 16) and
leave all seventeen destinations in insertion order. -/
theorem c9_add_edge_two_blocks (i d1 d2 d3 d4 d5 d6 d7 d8 d9 d10 d11 d12 d13 d14 d15 d16 d17 : Nat) :
    Res.map (fun p => p.snd) (add_edges (fun _ => none)
      [(i, d1), (i, d2), (i, d3), (i, d4), (i, d5), (i, d6), (i, d7), (i, d8), (i, d9),
       (i, d10), (i, d11), (i, d12), (i, d13), (i, d14), (i, d15), (i, d16), (i, d17)]) =
      Res.ok [16, 32] ∧
    Res.map (fun p => p.fst i) (add_edges (fun _ => none)
      [(i, d1), (i, d2), (i, d3), (i, d4), (i, d5), (i, d6), (i, d7), (i, d8), (i, d9),
       (i, d10), (i, d11), (i, d12), (i, d13), (i, d14), (i, d15), (i, d16), (i, d17)]) =
      Res.ok (some ⟨17, 32,
        [d1, d2, d3, d4, d5, d6, d7, d8, d9, d10, d11, d12, d13, d14, d15, d16, d17],
        false⟩) := by
  constructor
  · simp [add_edges, add_edge, Res.map, Function.update_same]
  · simp [add_edges, add_edge, Res.map, Function.update_same]

/-- C6 counterexample: the level-2 linked_list_create performs no
registration check: with no malloc function registered it calls through
the NULL function pointer (undefined behaviour, modelled as a crash)
instead of returning the NULL-failure result the claim requires. -/
theorem c6_level2_create_unchecked :
    level2.linked_list_create false schedT mem0 = Res.crash ∧
    (Res.crash : Res (Option level2.LL2 × Mem)) ≠ Res.ok (none, mem0) := by
  refine ⟨by simp [level2.linked_list_create], fun h => Res.noConfusion h⟩

/-- C6 amended: only the level-1 create checks the registration state:
it returns NULL when either function reference is unset, while the
level-2 create performs no such check and invokes the unregistered (null)
allocate reference, which is undefined behaviour rather than a failure
return. -/
theorem c6_create_registration_check :
    (∀ (mreg freg : Bool) (sched : Nat → Bool) (m : Mem), ¬(mreg = true ∧ freg = true) →
      level1.linked_list_create mreg freg sched m = Res.ok (none, m)) ∧
    (∀ (sched : Nat → Bool) (m : Mem),
      level2.linked_list_create false sched m = Res.crash) := by
  constructor
  · intro mreg freg sched m h
    have hor : mreg = false ∨ freg = false := by
      cases mreg
      · exact Or.inl rfl
      · cases freg
        · exact Or.inr rfl
        · exact absurd ⟨rfl, rfl⟩ h
    simp only [level1.linked_list_create, if_pos hor]
  · intro sched m
    simp [level2.linked_list_create]

/-- C6 witness: the amended theorem applied with only the free reference
registered (level 1) and with nothing registered (level 2). -/
theorem c6_create_registration_check_witness :
    level1.linked_list_create false true schedT mem0 = Res.ok (none, mem0) ∧
    level2.linked_list_create false schedT mem0 = Res.crash :=
  ⟨c6_create_registration_check.1 false true schedT mem0 (by simp),
   c6_create_registration_check.2 schedT mem0⟩

/-- When the scan target sits only in the last node of a chain, the find
loop returns the index of that last position. -/
theorem findLoop_snoc (m : Mem) (v : Nat) : ∀ (vs as : List Nat) (lk : Link) (i fuel : Nat),
    chainAddrs m lk (vs ++ [v]) as → v ∉ vs → vs.length + 1 ≤ fuel →
    level2.findLoop m v lk fuel i = Res.ok (i + vs.length) := by
  intro vs
  induction vs with
  | nil =>
    intro as lk i fuel h hv hf
    cases as with
    | nil => exact absurd h (by simp [chainAddrs])
    | cons a ar =>
      obtain ⟨hlk, nd, ha, hd, hrest⟩ := h
      cases fuel with
      | zero => omega
      | succ fuel => simp [level2.findLoop, hlk, ha, hd]
  | cons w wr ih =>
    intro as lk i fuel h hv hf
    rw [List.cons_append] at h
    cases as with
    | nil => exact absurd h (by simp [chainAddrs])
    | cons a ar =>
      obtain ⟨hlk, nd, ha, hd, hrest⟩ := h
      cases fuel with
      | zero => simp at hf
      | succ fuel =>
        have hwv : nd.data ≠ v := by
          rw [hd]
          exact fun hh => hv (hh ▸ List.mem_cons_self w wr)
        have hr := ih ar nd.next (i + 1) fuel hrest
          (fun hm => hv (List.mem_cons_of_mem w hm)) (by simpa using hf)
        simp only [level2.findLoop, hlk, ha, if_neg hwv, hr]
        congr 1
        simp [Nat.add_comm, Nat.add_assoc, Nat.add_left_comm]

/-- Proper termination of a level-1 chain: the empty chain has a null
head and a nonempty chain's last node links to null (maintained by the
level-1 insert, which always initializes the new node's next field). -/
def nullEnd (m : Mem) (lk : Link) (as : List Nat) : Prop :=
  match as.getLast? with
  | none => lk = Link.null
  | some b => ∃ nd, m.heap b = some nd ∧ nd.next = Link.null

/-- The representation invariant of a level-1 list. -/
def llInv1 (m : Mem) (l : level1.LL1) (vs as : List Nat) : Prop :=
  chainAddrs m l.head vs as ∧ l.size = vs.length ∧ as.Nodup ∧
    (∀ a ∈ as, a < m.next_addr) ∧ nullEnd m l.head as

theorem walk1_no_timeout (m : Mem) : ∀ (i : Nat) (p lk : Link),
    level1.walk1 m p lk i ≠ Res.timeout := by
  intro i
  induction i with
  | zero => intro p lk; simp [level1.walk1]
  | succ i ih =>
    intro p lk
    simp only [level1.walk1]
    cases h : readNode m lk with
    | ok nd => simpa [Res.bind] using ih lk nd.next
    | crash => simp [Res.bind]
    | timeout => exact absurd h (readNode_no_timeout m lk)

/-- Walking a whole chain leaves prev at the last node and curr at that
node's outgoing link. -/
theorem walk1_chain (m : Mem) : ∀ (vs as : List Nat) (lk p : Link) (b : Nat),
    chainAddrs m lk vs as → as.getLast? = some b →
    ∃ nd, m.heap b = some nd ∧
      level1.walk1 m p lk vs.length = Res.ok (Link.ptr b, nd.next) := by
  intro vs
  induction vs with
  | nil =>
    intro as lk p b h hb
    rw [chainAddrs_nil_right m lk as h] at hb
    simp at hb
  | cons w wr ih =>
    intro as lk p b h hb
    cases as with
    | nil => exact absurd h (by simp [chainAddrs])
    | cons a ar =>
      obtain ⟨hlk, nd, ha, hd, hrest⟩ := h
      cases wr with
      | nil =>
        have har : ar = [] := chainAddrs_nil_right m nd.next ar hrest
        subst har
        have hab : a = b := by simpa using hb
        subst hab
        exact ⟨nd, ha, by simp [level1.walk1, hlk, readNode, ha]⟩
      | cons w2 wr2 =>
        cases ar with
        | nil => exact absurd hrest (by simp [chainAddrs])
        | cons a2 ar2 =>
          have hb' : (a2 :: ar2).getLast? = some b := by
            rwa [List.getLast?_cons_cons] at hb
          obtain ⟨ndb, hndb, hwalk⟩ := ih (a2 :: ar2) nd.next lk b hrest hb'
          refine ⟨ndb, hndb, ?_⟩
          simp only [List.length_cons, level1.walk1, hlk, readNode, ha, Res.bind_ok]
          exact hwalk

/-- Walking idx steps from the head of a chain leaves prev at the node at
position idx - 1 (for 1 ≤ idx ≤ length). -/
theorem walk1_chain_idx (m : Mem) : ∀ (idx : Nat) (vs as : List Nat) (lk p : Link),
    chainAddrs m lk vs as → 1 ≤ idx → idx ≤ vs.length →
    ∃ b nd, as.get? (idx - 1) = some b ∧ m.heap b = some nd ∧
      level1.walk1 m p lk idx = Res.ok (Link.ptr b, nd.next) := by
  intro idx
  induction idx with
  | zero => intro vs as lk p _ h1 _; omega
  | succ idx ih =>
    intro vs as lk p h h1 h2
    cases vs with
    | nil => simp at h2
    | cons w wr =>
      cases as with
      | nil => exact absurd h (by simp [chainAddrs])
      | cons a ar =>
        obtain ⟨hlk, nd, ha, hd, hrest⟩ := h
        cases idx with
        | zero =>
          exact ⟨a, nd, rfl, ha, by simp [level1.walk1, hlk, readNode, ha]⟩
        | succ idx =>
          obtain ⟨b, ndb, hget, hndb, hwalk⟩ := ih wr ar nd.next lk hrest
            (Nat.succ_le_succ (Nat.zero_le idx)) (by simpa using h2)
          refine ⟨b, ndb, by simpa using hget, hndb, ?_⟩
          simp only [level1.walk1, hlk, readNode, ha, Res.bind_ok]
          exact hwalk

/-- Appending at the end of a level-1 list via insert_end succeeds under
the representation invariant and extends the value list; the level-1
insert null-terminates the new node, preserving nullEnd. -/
theorem insert_end1_spec (m : Mem) (l : level1.LL1) (vs as : List Nat) (v : Nat)
    (h : llInv1 m l vs as) :
    ∃ l' m', level1.linked_list_insert_end schedT m (some l) v =
        Res.ok (true, some l', m') ∧
      llInv1 m' l' (vs ++ [v]) (as ++ [m.next_addr]) := by
  obtain ⟨hch, hsz, hnd, hfr, hend⟩ := h
  cases vs with
  | nil =>
    have has : as = [] := chainAddrs_nil_right m l.head as hch
    subst has
    have hhead : l.head = Link.null := hend
    have hz : l.size = 0 := by simpa using hsz
    simp only [level1.linked_list_insert_end, level1.linked_list_insert,
      mallocNode_schedT, hz, hhead, level1.walk1]
    simp only [Nat.lt_irrefl, if_false, ite_false, reduceIte, Res.bind_ok,
      if_pos rfl, ite_true]
    refine ⟨_, _, rfl, ?_, rfl, by simp, ?_, ?_⟩
    · refine ⟨rfl, { data := v, next := Link.null }, ?_, rfl, trivial⟩
      rw [setNextAt_heap_self, setData_heap_self]
      simp [Function.update_same]
    · intro a ha
      simp only [List.nil_append, List.mem_singleton] at ha
      simp [ha]
    · show nullEnd _ _ [m.next_addr]
      simp only [nullEnd, List.getLast?_singleton]
      refine ⟨{ data := v, next := Link.null }, ?_, rfl⟩
      rw [setNextAt_heap_self, setData_heap_self]
      simp [Function.update_same]
  | cons w wr =>
    cases as with
    | nil => exact absurd hch (by simp [chainAddrs])
    | cons a ar =>
      have hchc := hch
      obtain ⟨hlk, nda, hha, -, -⟩ := hchc
      obtain ⟨b, hb⟩ : ∃ b, (a :: ar).getLast? = some b := by
        cases hgl : (a :: ar).getLast? with
        | none => exact absurd (List.getLast?_eq_none_iff.mp hgl) (by simp)
        | some x => exact ⟨x, rfl⟩
      obtain ⟨ndE, hndE, hEnull⟩ : ∃ nd, m.heap b = some nd ∧ nd.next = Link.null := by
        have := hend
        simp only [nullEnd, hb] at this
        exact this
      obtain ⟨nd, hndb, hwalk⟩ := walk1_chain m (w :: wr) (a :: ar) l.head Link.null b hch hb
      have hndnd : nd = ndE := by rw [hndb] at hndE; exact Option.some.inj hndE
      have hbmem : b ∈ a :: ar := List.mem_of_mem_getLast? hb
      have hbna : b ≠ m.next_addr := Nat.ne_of_lt (hfr b hbmem)
      have hheadne : ¬(l.head = Link.null) := by rw [hlk]; exact fun h => Link.noConfusion h
      simp only [level1.linked_list_insert_end, level1.linked_list_insert,
        mallocNode_schedT, hsz, hwalk]
      simp only [Nat.lt_irrefl, if_false, ite_false, reduceIte, Res.bind_ok,
        if_neg hheadne, readPtr, readNode]
      rw [setNextAt_heap_ne _ _ _ _ hbna, setData_heap_ne _ _ _ _ hbna]
      simp only [Function.update_noteq hbna, hndb, Res.bind_ok]
      refine ⟨_, _, rfl, ?_, by simp [hsz], ?_, ?_, ?_⟩
      · refine chainAddrs_snoc m _ v m.next_addr b (w :: wr) (a :: ar) l.head hch hb hnd
          ?_ ?_ ?_
        · intro c hc hcb
          have hcna : c ≠ m.next_addr := Nat.ne_of_lt (hfr c hc)
          rw [setNextAt_heap_ne _ _ _ _ hcb, setNextAt_heap_ne _ _ _ _ hcna,
            setNextAt_heap_ne _ _ _ _ hcna, setData_heap_ne _ _ _ _ hcna]
          exact Function.update_noteq hcna _ _
        · intro nd' hnd'
          rw [setNextAt_heap_self, setNextAt_heap_ne _ _ _ _ hbna,
            setNextAt_heap_ne _ _ _ _ hbna, setData_heap_ne _ _ _ _ hbna]
          simp only [Function.update_noteq hbna, hnd']
          rfl
        · refine ⟨{ data := v, next := nd.next }, ?_, rfl⟩
          rw [setNextAt_heap_ne _ _ _ _ hbna.symm, setNextAt_heap_self,
            setNextAt_heap_self, setData_heap_self]
          simp [Function.update_same]
      · rw [List.nodup_append]
        refine ⟨hnd, by simp, ?_⟩
        intro x hx hx'
        simp only [List.mem_singleton] at hx'
        exact absurd hx' (Nat.ne_of_lt (hfr x hx))
      · intro c hc
        rcases List.mem_append.mp hc with hc' | hc'
        · simp only [setNextAt_next_addr, setData_next_addr]
          exact Nat.lt_succ_of_lt (hfr c hc')
        · simp only [List.mem_singleton] at hc'
          simp [hc']
      · show nullEnd _ _ ((a :: ar) ++ [m.next_addr])
        simp only [nullEnd, List.getLast?_concat]
        refine ⟨{ data := v, next := nd.next }, ?_, by rw [hndnd, hEnull]⟩
        rw [setNextAt_heap_ne _ _ _ _ hbna.symm, setNextAt_heap_self,
          setNextAt_heap_self, setData_heap_self]
        simp [Function.update_same]

/-- A level-2 run contradicting C8: list [5], insert_end 5 (pre-insertion
size 1), then find 5.  Returns the find result and the pre-insertion size. -/
def c8_run : Option (Res Nat × Nat) :=
  match level2.linked_list_create true schedT mem0 with
  | Res.ok (ll, m) =>
    match level2.linked_list_insert_end schedT m ll 5 with
    | Res.ok (_, ll1, m1) =>
      match level2.linked_list_insert_end schedT m1 ll1 5 with
      | Res.ok (_, ll2, m2) =>
        some (level2.linked_list_find m2 ll2 5 10, level2.linked_list_size ll1)
      | _ => none
    | _ => none
  | _ => none

/-- C8 counterexample: when the inserted value already occurs in the
list, find returns the index of its first occurrence, not the
pre-insertion size: on the list [5], insert_end 5 followed by find 5
yields index 0 while the pre-insertion size is 1. -/
theorem c8_find_returns_first_occurrence :
    c8_run = some (Res.ok 0, 1) ∧ (0 : Nat) ≠ 1 := by decide

/-- C8 amended: in both list variants, insert_end of a value not already
present, followed by find of that value, returns exactly the
pre-insertion size (in general find returns the first occurrence's
index). -/
theorem c8_insert_end_then_find :
    (∀ m l vs as v, llInv m l vs as → v ∉ vs →
      ∃ l' m', level2.linked_list_insert_end schedT m (some l) v =
          Res.ok (true, some l', m') ∧
        level2.linked_list_find m' (some l') v (vs.length + 1) =
          Res.ok (level2.linked_list_size (some l))) ∧
    (∀ m l vs as v, llInv1 m l vs as → v ∉ vs →
      ∃ l' m', level1.linked_list_insert_end schedT m (some l) v =
          Res.ok (true, some l', m') ∧
        level1.linked_list_find m' (some l') v (vs.length + 1) =
          Res.ok (level1.linked_list_size (some l))) := by
  constructor
  · intro m l vs as v h hv
    obtain ⟨l', m', heq, hinv', -⟩ := insert_end2_spec m l vs as v h
    refine ⟨l', m', heq, ?_⟩
    obtain ⟨hch', -, -, -, -⟩ := hinv'
    have := findLoop_snoc m' v vs (as ++ [m.next_addr]) l'.head 0 (vs.length + 1)
      hch' hv (Nat.le_refl _)
    simp only [level2.linked_list_find, this, Nat.zero_add]
    simp [level2.linked_list_size, h.2.1]
  · intro m l vs as v h hv
    obtain ⟨l', m', heq, hinv'⟩ := insert_end1_spec m l vs as v h
    refine ⟨l', m', heq, ?_⟩
    obtain ⟨hch', -, -, -, -⟩ := hinv'
    have := findLoop_snoc m' v vs (as ++ [m.next_addr]) l'.head 0 (vs.length + 1)
      hch' hv (Nat.le_refl _)
    simp only [level1.linked_list_find, this, Nat.zero_add]
    simp [level1.linked_list_size, h.2.1]

/-- C8 witness: the amended theorem applied to the singleton level-2 list
[7] and the singleton level-1 list [7], inserting the fresh value 9. -/
theorem c8_insert_end_then_find_witness :
    (∃ l' m', level2.linked_list_insert_end schedT memW
        (some { head := Link.ptr 0, tail := Link.ptr 0, size := 1 }) 9 =
        Res.ok (true, some l', m') ∧
      level2.linked_list_find m' (some l') 9 2 =
        Res.ok (level2.linked_list_size (some
          { head := Link.ptr 0, tail := Link.ptr 0, size := 1 }))) ∧
    (∃ l' m', level1.linked_list_insert_end schedT memW
        (some { head := Link.ptr 0, size := 1 }) 9 =
        Res.ok (true, some l', m') ∧
      level1.linked_list_find m' (some l') 9 2 =
        Res.ok (level1.linked_list_size (some { head := Link.ptr 0, size := 1 }))) :=
  ⟨c8_insert_end_then_find.1 memW _ [7] [0] 9
     ⟨⟨rfl, { data := 7, next := Link.null }, by simp [memW], rfl, trivial⟩,
      rfl, by simp, by simp [memW], by simp⟩ (by simp),
   c8_insert_end_then_find.2 memW _ [7] [0] 9
     ⟨⟨rfl, { data := 7, next := Link.null }, by simp [memW], rfl, trivial⟩,
      rfl, by simp, by simp [memW],
      ⟨{ data := 7, next := Link.null }, by simp [memW], rfl⟩⟩ (by simp)⟩

theorem mallocNode_schedF (m : Mem) :
    mallocNode schedF m = (none, { m with calls := m.calls + 1 }) := by
  simp [mallocNode, memAllocRaw, schedF]

/-- Any ok result of an in-bounds level-2 insert carries true: every
return site inside the body is a success return. -/
theorem insert2_ok_true (sched : Nat → Bool) (m : Mem) (l : level2.LL2)
    (idx d : Nat) (b : Bool) (ll' : Option level2.LL2) (m' : Mem)
    (h : idx ≤ l.size)
    (heq : level2.linked_list_insert sched m (some l) idx d = Res.ok (b, ll', m')) :
    b = true := by
simp only [level2.linked_list_insert, if_neg (Nat.not_lt.mpr h)] at heq
rcases hma : mallocNode sched m with ⟨o, m1⟩
cases o with
| none =>
  simp only [hma] at heq
  exact Res.noConfusion heq
| some a =>
  simp only [hma] at heq
  by_cases h0 : idx = 0
  · rw [if_pos h0] at heq
    simp only [Res.ok.injEq, Prod.mk.injEq] at heq
    exact heq.1.symm
  · rw [if_neg h0] at heq
    by_cases hsze : idx = l.size
    · rw [if_pos hsze] at heq
      cases hrp : readPtr l.tail with
      | ok t =>
        rw [hrp, Res.bind_ok] at heq
        cases hh : (setData m1 a d).heap t with
        | none => rw [hh] at heq; exact Res.noConfusion heq
        | some nd =>
          rw [hh] at heq
          simp only [Res.ok.injEq, Prod.mk.injEq] at heq
          exact heq.1.symm
      | crash => rw [hrp] at heq; exact Res.noConfusion heq
      | timeout => rw [hrp] at heq; exact Res.noConfusion heq
    · rw [if_neg hsze] at heq
      cases hit : level2._linked_list_init_iterator (setData m1 a d) l (idx - 1) with
      | ok it =>
        rw [hit, Res.bind_ok] at heq
        cases hrp : readPtr it.current_node with
        | ok p =>
          rw [hrp, Res.bind_ok] at heq
          cases hrn : readNode (setData m1 a d) it.current_node with
          | ok pnd =>
            rw [hrn, Res.bind_ok] at heq
            simp only [Res.ok.injEq, Prod.mk.injEq] at heq
            exact heq.1.symm
          | crash => rw [hrn] at heq; exact Res.noConfusion heq
          | timeout => rw [hrn] at heq; exact Res.noConfusion heq
        | crash => rw [hrp] at heq; exact Res.noConfusion heq
        | timeout => rw [hrp] at heq; exact Res.noConfusion heq
      | crash => rw [hit] at heq; exact Res.noConfusion heq
      | timeout => rw [hit] at heq; exact Res.noConfusion heq


/-- Any ok result of an in-bounds level-1 insert carries true. -/
theorem insert1_ok_true (sched : Nat → Bool) (m : Mem) (l : level1.LL1)
    (idx d : Nat) (b : Bool) (ll' : Option level1.LL1) (m' : Mem)
    (h : idx ≤ l.size)
    (heq : level1.linked_list_insert sched m (some l) idx d = Res.ok (b, ll', m')) :
    b = true := by
simp only [level1.linked_list_insert, if_neg (Nat.not_lt.mpr h)] at heq
cases hw : level1.walk1 m Link.null l.head idx with
| ok pc =>
  rw [hw, Res.bind_ok] at heq
  rcases hma : mallocNode sched m with ⟨o, m1⟩
  cases o with
  | none =>
    simp only [hma] at heq
    exact Res.noConfusion heq
  | some a =>
    simp only [hma] at heq
    by_cases hhead : l.head = Link.null
    · rw [if_pos hhead] at heq
      simp only [Res.ok.injEq, Prod.mk.injEq] at heq
      exact heq.1.symm
    · rw [if_neg hhead] at heq
      cases hpc : pc.fst with
      | null =>
        rw [hpc] at heq
        simp only [Res.ok.injEq, Prod.mk.injEq] at heq
        exact heq.1.symm
      | ptr p =>
        rw [hpc] at heq
        simp only [readPtr, Res.bind_ok] at heq
        cases hrn : readNode (setNextAt (setData m1 a d) a Link.null)
            (Link.ptr p) with
        | ok pnd =>
          rw [hrn, Res.bind_ok] at heq
          simp only [Res.ok.injEq, Prod.mk.injEq] at heq
          exact heq.1.symm
        | crash => rw [hrn] at heq; exact Res.noConfusion heq
        | timeout => rw [hrn] at heq; exact Res.noConfusion heq
      | junk =>
        rw [hpc] at heq
        simp only [readPtr] at heq
        exact Res.noConfusion heq
| crash => rw [hw] at heq; exact Res.noConfusion heq
| timeout => exact absurd hw (walk1_no_timeout m idx Link.null l.head)


/-- C10: in both list variants, an in-bounds insert dereferences the node
returned by the registered allocate function without any check: when the
allocator is exhausted (every call returns NULL) the insert is undefined
behaviour (crash), never the recoverable false return; the false return
occurs exactly for a NULL list or an out-of-bounds index (any ok result
of an in-bounds insert carries true); and with a never-failing allocator
an in-bounds insert on a well-formed list returns success
unconditionally. -/
theorem c10_insert_unchecked_allocation :
    (∀ m (l : level2.LL2) idx d, idx ≤ l.size →
      level2.linked_list_insert schedF m (some l) idx d = Res.crash) ∧
    (∀ (sched : Nat → Bool) m (ll : Option level2.LL2) idx d,
      (ll = none ∨ ∃ l, ll = some l ∧ l.size < idx) →
      level2.linked_list_insert sched m ll idx d = Res.ok (false, ll, m)) ∧
    (∀ (sched : Nat → Bool) m (l : level2.LL2) idx d, idx ≤ l.size →
      Res.map (fun r => r.fst) (level2.linked_list_insert sched m (some l) idx d) ≠
        Res.ok false) ∧
    (∀ m l vs as idx d, llInv m l vs as → idx ≤ vs.length →
      ∃ l' m', level2.linked_list_insert schedT m (some l) idx d =
        Res.ok (true, some l', m')) ∧
    (∀ m (l : level1.LL1) idx d, idx ≤ l.size →
      level1.linked_list_insert schedF m (some l) idx d = Res.crash) ∧
    (∀ (sched : Nat → Bool) m (ll : Option level1.LL1) idx d,
      (ll = none ∨ ∃ l, ll = some l ∧ l.size < idx) →
      level1.linked_list_insert sched m ll idx d = Res.ok (false, ll, m)) ∧
    (∀ (sched : Nat → Bool) m (l : level1.LL1) idx d, idx ≤ l.size →
      Res.map (fun r => r.fst) (level1.linked_list_insert sched m (some l) idx d) ≠
        Res.ok false) ∧
    (∀ m l vs as idx d, llInv1 m l vs as → idx ≤ vs.length →
      ∃ l' m', level1.linked_list_insert schedT m (some l) idx d =
        Res.ok (true, some l', m')) := by
  refine ⟨?_, ?_, ?_, ?_, ?_, ?_, ?_, ?_⟩
  · -- level 2, exhausted allocator: unchecked dereference of NULL
    intro m l idx d h
    simp [level2.linked_list_insert, if_neg (Nat.not_lt.mpr h), mallocNode_schedF]
  · -- level 2, the false return happens for NULL list / out-of-bounds index
    intro sched m ll idx d h
    rcases h with rfl | ⟨l, rfl, hlt⟩
    · simp [level2.linked_list_insert]
    · simp [level2.linked_list_insert, if_pos hlt]
  · -- level 2, an in-bounds insert never takes the recoverable-failure return
    intro sched m l idx d h hcontra
    cases hres : level2.linked_list_insert sched m (some l) idx d with
    | ok r =>
      rw [hres] at hcontra
      simp only [Res.map_ok, Res.ok.injEq] at hcontra
      exact Bool.false_ne_true (hcontra ▸ insert2_ok_true sched m l idx d
        r.fst r.snd.fst r.snd.snd h hres)
    | crash => rw [hres] at hcontra; exact Res.noConfusion hcontra
    | timeout => rw [hres] at hcontra; exact Res.noConfusion hcontra
  · -- level 2, success on a well-formed list with a never-failing allocator
    intro m l vs as idx d h hidx
    obtain ⟨hch, hsz, hnd, hfr, htl⟩ := h
    have hb : ¬(l.size < idx) := by rw [hsz]; exact Nat.not_lt.mpr hidx
    by_cases h0 : idx = 0
    · subst h0
      simp only [level2.linked_list_insert, if_neg hb, mallocNode_schedT, if_pos rfl]
      exact ⟨_, _, rfl⟩
    · by_cases hsze : idx = l.size
      · have hvs : vs ≠ [] := by
          intro hv
          rw [hv] at hsz
          simp at hsz
          omega
        have has : as ≠ [] := by
          intro ha
          have hl := chainAddrs_length m vs as l.head hch
          rw [ha] at hl
          exact hvs (List.length_eq_zero.mp (by simpa using hl.symm))
        obtain ⟨b, hgl⟩ : ∃ b, as.getLast? = some b := by
          cases hgl : as.getLast? with
          | none => exact absurd (List.getLast?_eq_none_iff.mp hgl) has
          | some x => exact ⟨x, rfl⟩
        have htail : l.tail = Link.ptr b := htl b hgl
        have hbmem : b ∈ as := List.mem_of_mem_getLast? hgl
        obtain ⟨ndb, hndb⟩ := chainAddrs_heap m vs as l.head hch b hbmem
        have hbna : b ≠ m.next_addr := Nat.ne_of_lt (hfr b hbmem)
        simp only [level2.linked_list_insert, if_neg hb, mallocNode_schedT,
          if_neg h0, if_pos hsze, htail, readPtr, Res.bind_ok]
        rw [setData_heap_ne _ _ _ _ hbna]
        simp only [Function.update_noteq hbna, hndb]
        exact ⟨_, _, rfl⟩
      · have hlt : idx - 1 < vs.length := by omega
        rcases hma : mallocNode schedT m with ⟨o, m1⟩
        have hosome : o = some m.next_addr ∧
            m1.heap = Function.update m.heap m.next_addr
              (some { data := 0, next := Link.junk }) := by
          rw [mallocNode_schedT] at hma
          cases hma
          exact ⟨rfl, rfl⟩
        have hagree : ∀ c ∈ as, (setData m1 m.next_addr d).heap c = m.heap c := by
          intro c hc
          have hcna : c ≠ m.next_addr := Nat.ne_of_lt (hfr c hc)
          rw [setData_heap_ne _ _ _ _ hcna, hosome.2]
          exact Function.update_noteq hcna _ _
        have hch2 := chainAddrs_congr m _ vs as l.head hagree hch
        obtain ⟨ai, ndi, hget, hwalk, hheap, hdata⟩ :=
          walkNext_chain _ (idx - 1) vs as l.head hch2 hlt
        simp only [level2.linked_list_insert, if_neg hb, hma, hosome.1,
          if_neg h0, if_neg hsze, level2._linked_list_init_iterator, hwalk,
          Res.bind_ok, readNode, hheap, readPtr]
        exact ⟨_, _, rfl⟩
  · -- level 1, exhausted allocator
    intro m l idx d h
    simp only [level1.linked_list_insert, if_neg (Nat.not_lt.mpr h)]
    cases hw : level1.walk1 m Link.null l.head idx with
    | ok pc => simp [hw, mallocNode_schedF, Res.bind]
    | crash => simp [hw, Res.bind]
    | timeout => exact absurd hw (walk1_no_timeout m idx Link.null l.head)
  · -- level 1, the false return happens for NULL list / out-of-bounds index
    intro sched m ll idx d h
    rcases h with rfl | ⟨l, rfl, hlt⟩
    · simp [level1.linked_list_insert]
    · simp [level1.linked_list_insert, if_pos hlt]
  · -- level 1, an in-bounds insert never takes the recoverable-failure return
    intro sched m l idx d h hcontra
    cases hres : level1.linked_list_insert sched m (some l) idx d with
    | ok r =>
      rw [hres] at hcontra
      simp only [Res.map_ok, Res.ok.injEq] at hcontra
      exact Bool.false_ne_true (hcontra ▸ insert1_ok_true sched m l idx d
        r.fst r.snd.fst r.snd.snd h hres)
    | crash => rw [hres] at hcontra; exact Res.noConfusion hcontra
    | timeout => rw [hres] at hcontra; exact Res.noConfusion hcontra
  · -- level 1, success on a well-formed list with a never-failing allocator
    intro m l vs as idx d h hidx
    obtain ⟨hch, hsz, hnd, hfr, hend⟩ := h
    have hb : ¬(l.size < idx) := by rw [hsz]; exact Nat.not_lt.mpr hidx
    cases vs with
    | nil =>
      have has : as = [] := chainAddrs_nil_right m l.head as hch
      subst has
      have hhead : l.head = Link.null := hend
      have h0 : idx = 0 := by simpa using hidx
      subst h0
      simp only [level1.linked_list_insert, if_neg hb, level1.walk1,
        mallocNode_schedT, Res.bind_ok]
      rw [if_pos hhead]
      exact ⟨_, _, rfl⟩
    | cons w wr =>
      cases as with
      | nil => exact absurd hch (by simp [chainAddrs])
      | cons a ar =>
        have hhead : l.head = Link.ptr a := hch.1
        have hheadne : ¬(l.head = Link.null) := by
          rw [hhead]; exact fun hc => Link.noConfusion hc
        cases idx with
        | zero =>
          simp only [level1.linked_list_insert, if_neg hb, level1.walk1,
            mallocNode_schedT, Res.bind_ok]
          rw [if_neg hheadne]
          exact ⟨_, _, rfl⟩
        | succ idx =>
          obtain ⟨bi, ndi, hget, hheap, hwalk⟩ := walk1_chain_idx m (idx + 1)
            (w :: wr) (a :: ar) l.head Link.null hch
            (Nat.succ_le_succ (Nat.zero_le _)) hidx
          have hbimem : bi ∈ a :: ar := List.get?_mem hget
          have hbina : bi ≠ m.next_addr := Nat.ne_of_lt (hfr bi hbimem)
          simp only [level1.linked_list_insert, if_neg hb, hwalk, Res.bind_ok,
            mallocNode_schedT]
          rw [if_neg hheadne]
          simp only [readPtr, Res.bind_ok, readNode]
          rw [setNextAt_heap_ne _ _ _ _ hbina, setData_heap_ne _ _ _ _ hbina]
          simp only [Function.update_noteq hbina, hheap]
          exact ⟨_, _, rfl⟩

/-- C10 witness: the eight parts applied at concrete states: empty and
singleton lists of both variants over the empty heap and the singleton
heap memW. -/
theorem c10_insert_unchecked_allocation_witness :
    (level2.linked_list_insert schedF mem0
      (some { head := Link.null, tail := Link.null, size := 0 }) 0 5 = Res.crash) ∧
    (level2.linked_list_insert schedT mem0 none 0 5 = Res.ok (false, none, mem0)) ∧
    (Res.map (fun r => r.fst) (level2.linked_list_insert schedT memW
        (some { head := Link.ptr 0, tail := Link.ptr 0, size := 1 }) 1 9) ≠
      Res.ok false) ∧
    (∃ l' m', level2.linked_list_insert schedT memW
        (some { head := Link.ptr 0, tail := Link.ptr 0, size := 1 }) 1 9 =
      Res.ok (true, some l', m')) ∧
    (level1.linked_list_insert schedF mem0
      (some { head := Link.null, size := 0 }) 0 5 = Res.crash) ∧
    (level1.linked_list_insert schedT mem0 none 0 5 = Res.ok (false, none, mem0)) ∧
    (Res.map (fun r => r.fst) (level1.linked_list_insert schedT memW
        (some { head := Link.ptr 0, size := 1 }) 1 9) ≠ Res.ok false) ∧
    (∃ l' m', level1.linked_list_insert schedT memW
        (some { head := Link.ptr 0, size := 1 }) 1 9 = Res.ok (true, some l', m')) :=
  ⟨c10_insert_unchecked_allocation.1 mem0 _ 0 5 (by decide),
   c10_insert_unchecked_allocation.2.1 schedT mem0 none 0 5 (Or.inl rfl),
   c10_insert_unchecked_allocation.2.2.1 schedT memW _ 1 9 (by decide),
   c10_insert_unchecked_allocation.2.2.2.1 memW _ [7] [0] 1 9
     ⟨⟨rfl, { data := 7, next := Link.null }, by simp [memW], rfl, trivial⟩,
      rfl, by simp, by simp [memW], by simp⟩ (by decide),
   c10_insert_unchecked_allocation.2.2.2.2.1 mem0 _ 0 5 (by decide),
   c10_insert_unchecked_allocation.2.2.2.2.2.1 schedT mem0 none 0 5 (Or.inl rfl),
   c10_insert_unchecked_allocation.2.2.2.2.2.2.1 schedT memW _ 1 9 (by decide),
   c10_insert_unchecked_allocation.2.2.2.2.2.2.2 memW _ [7] [0] 1 9
     ⟨⟨rfl, { data := 7, next := Link.null }, by simp [memW], rfl, trivial⟩,
      rfl, by simp, by simp [memW],
      ⟨{ data := 7, next := Link.null }, by simp [memW], rfl⟩⟩ (by decide)⟩
